import Mathlib

/-!
Verification of the deep-researcher index/search/file-management layer.

The definitions below are a shallow embedding of the Python sources:
`data_loader.py`, `build_index.py`, `deep_researcher.py`, `search.py`,
`file_manager.py`.  File contents are modelled as their whitespace-split
word sequences (the result of Python text.split()), embeddings as lists
of rationals, and the two persisted artifacts (the FAISS index file and
the chunks JSON file) as explicit state.
-/

namespace DeepResearch

/-! ### Chunker (data_loader.load_and_chunk_data)

The Python loop is: for i in range(0, len(words), chunk_size):
chunks.append(" ".join(words[i:i+chunk_size])).  We model the grouping
of the word list; the fuel argument mirrors the fact that the loop makes
at most len(words) iterations when chunk_size is at least 1 (Python
range with step 0 raises, so chunk_size = 0 never reaches the loop body
meaningfully; the claims only concern chunk_size > 0). -/

variable {α : Type*}

def chunksOfAux (c : Nat) : Nat → List α → List (List α)
  | 0, _ => []
  | _ + 1, [] => []
  | fuel + 1, w :: ws => ((w :: ws).take c) :: chunksOfAux c fuel ((w :: ws).drop c)

/-- Word-group layer of load_and_chunk_data: the list of consecutive
chunk_size-sized groups of words. -/
def chunksOf (c : Nat) (ws : List α) : List (List α) :=
  chunksOfAux c ws.length ws

/-- load_and_chunk_data, at the level of a word list: each group of
words is rendered back to text with single spaces, matching
" ".join(words[i:i+chunk_size]). -/
def load_and_chunk_words (ws : List String) (c : Nat) : List String :=
  (chunksOf c ws).map (fun g => String.intercalate " " g)

theorem chunksOfAux_nil (c : Nat) : ∀ fuel, chunksOfAux c fuel ([] : List α) = [] := by
  intro fuel; cases fuel <;> rfl

theorem chunksOfAux_ne_nil (c : Nat) (fuel : Nat) (ws : List α)
    (hw : ws ≠ []) (h : 1 ≤ fuel) : chunksOfAux c fuel ws ≠ [] := by
  cases fuel with
  | zero => omega
  | succ n =>
    cases ws with
    | nil => exact absurd rfl hw
    | cons w t => simp [chunksOfAux]

theorem chunksOfAux_flatten (c : Nat) (hc : 0 < c) :
    ∀ fuel (ws : List α), ws.length ≤ fuel → (chunksOfAux c fuel ws).flatten = ws := by
  intro fuel
  induction fuel with
  | zero =>
    intro ws h
    have : ws = [] := List.length_eq_zero.mp (Nat.le_zero.mp h)
    subst this; rfl
  | succ n ih =>
    intro ws h
    cases ws with
    | nil => rfl
    | cons w t =>
      simp only [chunksOfAux, List.flatten_cons]
      rw [ih (List.drop c (w :: t)) ?_, List.take_append_drop]
      simp only [List.length_drop, List.length_cons] at *
      omega

theorem chunksOfAux_length (c : Nat) (hc : 0 < c) :
    ∀ fuel (ws : List α), ws.length ≤ fuel →
      (chunksOfAux c fuel ws).length = (ws.length + c - 1) / c := by
  intro fuel
  induction fuel with
  | zero =>
    intro ws h
    have : ws = [] := List.length_eq_zero.mp (Nat.le_zero.mp h)
    subst this
    simp only [chunksOfAux, List.length_nil]
    symm; apply Nat.div_eq_of_lt; omega
  | succ n ih =>
    intro ws h
    cases ws with
    | nil =>
      simp only [chunksOfAux, List.length_nil]
      symm; apply Nat.div_eq_of_lt; omega
    | cons w t =>
      simp only [chunksOfAux, List.length_cons]
      rw [ih _ (by simp only [List.length_drop, List.length_cons] at *; omega)]
      simp only [List.length_drop, List.length_cons]
      rcases le_or_lt (t.length + 1) c with hmc | hmc
      · have h1 : t.length + 1 - c = 0 := by omega
        rw [h1]
        have h2 : (0 + c - 1) / c = 0 := Nat.div_eq_of_lt (by omega)
        have h3 : (t.length + 1 + c - 1) / c = 1 := by
          have e : t.length + 1 + c - 1 = t.length + c := by omega
          rw [e, Nat.add_div_right _ hc]
          have : t.length / c = 0 := Nat.div_eq_of_lt (by omega)
          omega
        omega
      · have hA : t.length + 1 - c + c - 1 = (t.length - c) + c := by omega
        have hB : t.length + 1 + c - 1 = ((t.length - c) + c) + c := by omega
        rw [hA, hB, Nat.add_div_right _ hc, Nat.add_div_right _ hc,
          Nat.add_div_right _ hc]

theorem chunksOfAux_dropLast (c : Nat) (hc : 0 < c) :
    ∀ fuel (ws : List α), ws.length ≤ fuel →
      ∀ g ∈ (chunksOfAux c fuel ws).dropLast, g.length = c := by
  intro fuel
  induction fuel with
  | zero =>
    intro ws h g hg
    have : ws = [] := List.length_eq_zero.mp (Nat.le_zero.mp h)
    subst this; simp [chunksOfAux] at hg
  | succ n ih =>
    intro ws h g hg
    cases ws with
    | nil => simp [chunksOfAux] at hg
    | cons w t =>
      simp only [chunksOfAux] at hg
      by_cases hd : List.drop c (w :: t) = []
      · rw [hd, chunksOfAux_nil] at hg
        simp at hg
      · have hlen : c < (w :: t).length := by
          rcases Nat.lt_or_ge c (w :: t).length with h1 | h1
          · exact h1
          · exact absurd (List.drop_eq_nil_of_le h1) hd
        have hfuel : 1 ≤ n := by
          simp only [List.length_cons] at h hlen; omega
        have hne := chunksOfAux_ne_nil c n (List.drop c (w :: t)) hd hfuel
        rw [List.dropLast_cons_of_ne_nil hne] at hg
        rcases List.mem_cons.mp hg with rfl | hg'
        · rw [List.length_take]; omega
        · exact ih _ (by simp only [List.length_drop, List.length_cons] at *; omega) g hg'

/-! ### Data model

Embedding vectors are lists of rationals; the embedding model
(SentenceTransformer.encode) is an external deterministic function and
is kept as a parameter embed : String -> List Rat, applied pointwise
exactly as model.encode maps each text to one vector. -/

/-- Metric variant of a FAISS flat index: faiss.IndexFlatL2 versus
faiss.IndexFlatIP. -/
inductive Metric
  | l2
  | ip
deriving DecidableEq, Repr

/-- A FAISS flat index: the metric fixed at construction and the stored
vectors in insertion order (position id = list position, ntotal = list
length). -/
structure FaissIndex where
  metric : Metric
  vecs : List (List ℚ)
deriving DecidableEq, Repr

/-- In-memory state of a DeepResearcher instance: self.index (None until
an index exists) and self.documents (the chunk list). -/
structure DRState where
  index : Option FaissIndex
  documents : List String
deriving DecidableEq, Repr

/-- A persisted file slot: the file is absent, or present but does not
parse (corrupt), or present with parsed content. -/
inductive PFile (α : Type)
  | absent
  | corrupt
  | good (a : α)
deriving DecidableEq, Repr

/-- os.path.exists for a persisted file slot. -/
def PFile.present {α : Type} : PFile α → Bool
  | .absent => false
  | _ => true

/-- State owned by a FileManager: the data directory (file name paired
with the whitespace-split words of its content) and the two persisted
artifacts (document.index and chunks.json). -/
structure FMState where
  dataFiles : List (String × List String)
  indexFile : PFile FaissIndex
  chunksFile : PFile (List String)
deriving DecidableEq, Repr

/-! ### DeepResearcher (deep_researcher.py) -/

/-- DeepResearcher.create_embeddings: model.encode over a list of texts,
one vector per text. -/
def create_embeddings (embed : String → List ℚ) (texts : List String) : List (List ℚ) :=
  texts.map embed

/-- DeepResearcher.setup_vector_index: builds a fresh faiss.IndexFlatIP
of the embedding dimension and adds the given embeddings. -/
def setup_vector_index (embeddings : List (List ℚ)) : FaissIndex :=
  { metric := .ip, vecs := embeddings }

/-- The three observable outcomes of DeepResearcher.load_existing_index:
both files read and parsed (loaded), at least one path absent (noIndex,
the message "No existing index found"), or a read raised and was caught
(loadError, the message "Error loading existing index"). -/
inductive LoadOutcome
  | loaded
  | noIndex
  | loadError
deriving DecidableEq, Repr

/-- DeepResearcher.load_existing_index: when both paths exist it reads
the index and the chunks (an unreadable file raises, is caught, and
resets self.index to None and self.documents to []); when either path
is missing it leaves the fresh state (None, []) and reports no index. -/
def load_existing_index (ifl : PFile FaissIndex) (cfl : PFile (List String)) :
    DRState × LoadOutcome :=
  if ifl.present && cfl.present then
    match ifl, cfl with
    | .good i, .good cs => ({ index := some i, documents := cs }, .loaded)
    | _, _ => ({ index := none, documents := [] }, .loadError)
  else
    ({ index := none, documents := [] }, .noIndex)

/-- Result of add_documents: the new in-memory state together with the
trace of calls made to create_embeddings (each entry is the list of
texts passed to one call). -/
structure AddResult where
  state : DRState
  embeddedBatches : List (List String)
deriving DecidableEq, Repr

/-- DeepResearcher.add_documents: extends self.documents with the new
documents, embeds the new documents, then either builds a first index
from just those embeddings (self.index is None) or re-embeds the entire
extended document list and recreates the index from scratch (the source
comments: for simplicity we recreate the index). Both constructions go
through setup_vector_index, hence IndexFlatIP. -/
def add_documents (embed : String → List ℚ) (st : DRState) (docs : List String) :
    AddResult :=
  let documents' := st.documents ++ docs
  let newEmb := create_embeddings embed docs
  match st.index with
  | none =>
      { state := { index := some (setup_vector_index newEmb), documents := documents' },
        embeddedBatches := [docs] }
  | some _ =>
      let allEmb := create_embeddings embed documents'
      { state := { index := some (setup_vector_index allEmb), documents := documents' },
        embeddedBatches := [docs, documents'] }

/-- DeepResearcher.save_index: writes the index file and then the chunks
file, but only when self.index is not None and self.documents is
non-empty; otherwise both files are left untouched. -/
def save_index (st : DRState) (ifl : PFile FaissIndex) (cfl : PFile (List String)) :
    PFile FaissIndex × PFile (List String) :=
  match st.index with
  | some i => if st.documents.isEmpty then (ifl, cfl) else (.good i, .good st.documents)
  | none => (ifl, cfl)

/-! ### build_index.py -/

/-- build_index.build_index_from_chunks: raises ValueError on an empty
chunk list (modelled as none); otherwise embeds every chunk and builds
a fresh faiss.IndexFlatL2 holding those vectors, returning the index
and the unchanged chunk list. -/
def build_index_from_chunks (embed : String → List ℚ) (all_chunks : List String) :
    Option (FaissIndex × List String) :=
  if all_chunks.isEmpty then none
  else some ({ metric := .l2, vecs := all_chunks.map embed }, all_chunks)

/-- build_index.save_index_and_chunks: writes the index file then the
chunks file. -/
def save_index_and_chunks (idx : FaissIndex) (chunks : List String)
    (fs : FMState) : FMState :=
  { fs with indexFile := .good idx, chunksFile := .good chunks }

/-! ### data_loader.load_all_text_files and FileManager (file_manager.py) -/

/-- Suffix filter used both by FileManager.list_uploaded_files
(glob for files matching *.txt) and by data_loader.load_all_text_files
(filename.endswith(".txt")). -/
def isTxt (name : String) : Bool :=
  name.data.reverse.take 4 = ".txt".data.reverse

/-- Content of a named file in the data directory, if present. -/
def lookupData (fs : FMState) (name : String) : Option (List String) :=
  (fs.dataFiles.find? (fun p => p.1 == name)).map (fun p => p.2)

/-- data_loader.load_all_text_files: chunks every .txt file of the data
directory (directory iteration order) with the given chunk size and
concatenates all chunk lists. -/
def load_all_text_files (fs : FMState) (chunk_size : Nat) : List String :=
  ((fs.dataFiles.filter (fun p => isTxt p.1)).map
    (fun p => load_and_chunk_words p.2 chunk_size)).flatten

/-- FileManager.upload_file: fails when the source path does not exist
(modelled by srcContent = none); otherwise copies the file under its
base name into the data directory, overwriting any file of that name.
The chunk_size argument is accepted but never read by the source. -/
def upload_file (fs : FMState) (srcName : String) (srcContent : Option (List String))
    (chunk_size : Nat) : FMState × Bool :=
  match srcContent with
  | none => (fs, false)
  | some content =>
      ({ fs with dataFiles :=
          (fs.dataFiles.filter (fun p => p.1 != srcName)) ++ [(srcName, content)] },
        true)

/-- FileManager.list_uploaded_files: names of the .txt files in the data
directory. -/
def list_uploaded_files (fs : FMState) : List String :=
  (fs.dataFiles.filter (fun p => isTxt p.1)).map (fun p => p.1)

/-- FileManager.remove_file: unlinks exactly the named file when it
exists and reports success; reports failure when it is absent.  Only
the data directory is touched. -/
def remove_file (fs : FMState) (name : String) : FMState × Bool :=
  if (lookupData fs name).isSome then
    ({ fs with dataFiles := fs.dataFiles.filter (fun p => p.1 != name) }, true)
  else
    (fs, false)

/-- Result record of FileManager.get_file_info.  The size and modified
fields of the source are raw os.stat values (byte size and mtime) and
are not modelled; the claims concern only the name and the chunk
count. -/
structure FileInfo where
  name : String
  chunks : Nat
deriving DecidableEq, Repr

/-- FileManager.get_file_info: None when the file is absent; otherwise
re-chunks the current file content with the hard-coded chunk_size 200
(file_manager.py line 122) and reports the resulting chunk count. -/
def get_file_info (fs : FMState) (name : String) : Option FileInfo :=
  match lookupData fs name with
  | none => none
  | some content => some { name := name, chunks := (load_and_chunk_words content 200).length }

/-- FileManager.rebuild_index: chunks every .txt file (chunk_size 200),
returns False without touching anything when no chunks were produced,
and otherwise builds a fresh index from all chunks and persists the
pair via save_index_and_chunks. -/
def rebuild_index (embed : String → List ℚ) (fs : FMState) : FMState × Bool :=
  let chunks := load_all_text_files fs 200
  if chunks.isEmpty then (fs, false)
  else
    match build_index_from_chunks embed chunks with
    | none => (fs, false)
    | some (idx, pchunks) => (save_index_and_chunks idx pchunks fs, true)

/-- FileManager.add_file_to_index: fails when the file is absent or
chunks to nothing.  Otherwise (file_manager.py line 191) it constructs
DeepResearcher(self.index_file, self.chunks_file) with POSITIONAL
arguments, but the first parameter of DeepResearcher.init is
model_name; so the index path string (default "document.index") is
passed as the sentence-transformer model name.  Loading a model by
that name raises inside the constructor (it is not a model identifier
and not a model directory), the exception is caught by the except arm
of add_file_to_index, and False is returned with no state change.
Hence the operation always fails once it reaches the construction. -/
def add_file_to_index (fs : FMState) (name : String) : FMState × Bool :=
  match lookupData fs name with
  | none => (fs, false)
  | some content =>
      let chunks := load_and_chunk_words content 200
      if chunks.isEmpty then (fs, false)
      else (fs, false)

/-- FileManager.get_index_stats result record. -/
structure IndexStats where
  index_exists : Bool
  chunks_exists : Bool
  total_vectors : Nat
  total_chunks : Nat
  uploaded_files : Nat
deriving DecidableEq, Repr

/-- FileManager.get_index_stats: checks existence of the two persisted
files; when both exist it parses the chunks file and reads the index
(a parse failure raises, is caught, and the function returns the empty
dict, modelled as none); when at least one is missing the counts stay
zero. -/
def get_index_stats (fs : FMState) : Option IndexStats :=
  let ie := fs.indexFile.present
  let ce := fs.chunksFile.present
  if ie && ce then
    match fs.chunksFile, fs.indexFile with
    | .good cs, .good idx =>
        some { index_exists := ie, chunks_exists := ce,
               total_vectors := idx.vecs.length, total_chunks := cs.length,
               uploaded_files := (list_uploaded_files fs).length }
    | _, _ => none
  else
    some { index_exists := ie, chunks_exists := ce,
           total_vectors := 0, total_chunks := 0,
           uploaded_files := (list_uploaded_files fs).length }

/-! ### Flat-index search (faiss.IndexFlat.search and search.py)

The actual nearest-neighbor scan is inside the external FAISS library.
It is modelled here by its documented contract for flat indexes: score
every stored vector against the query (squared L2 distance for
IndexFlatL2, inner product for IndexFlatIP), order best-first
(ascending distance for L2, descending score for IP), return the ids of
the first k, and - when fewer than k vectors are stored - pad the
remaining result slots with id -1.  The returned id row therefore
always has exactly k entries. -/

/-- Squared Euclidean distance, the ranking key of IndexFlatL2. -/
def sqDist (u v : List ℚ) : ℚ :=
  ((u.zip v).map (fun p => (p.1 - p.2) * (p.1 - p.2))).sum

/-- Inner product, the ranking key of IndexFlatIP. -/
def dot (u v : List ℚ) : ℚ :=
  ((u.zip v).map (fun p => p.1 * p.2)).sum

/-- Ranking key of a stored vector for the given metric. -/
def score (m : Metric) (q v : List ℚ) : ℚ :=
  match m with
  | .l2 => sqDist q v
  | .ip => dot q v

/-- Model of index.search restricted to the id row (indices[0]): ids of
the stored vectors ordered best-first by the metric, truncated to k,
padded with -1 up to k entries. -/
def flat_search (idx : FaissIndex) (q : List ℚ) (k : Nat) : List Int :=
  let scored := (List.range idx.vecs.length).map
    (fun i => (Int.ofNat i, score idx.metric q (idx.vecs.getD i [])))
  let sorted : List (Int × ℚ) :=
    match idx.metric with
    | .l2 => scored.insertionSort (fun a b => a.2 ≤ b.2)
    | .ip => scored.insertionSort (fun a b => b.2 ≤ a.2)
  (sorted.take k).map (fun p => p.1) ++ List.replicate (k - idx.vecs.length) (-1)

/-- Python list subscript chunks[i]: non-negative positions index from
the front, negative positions index from the back, and anything out of
range raises IndexError (none). -/
def pyGet {α : Type} (l : List α) (i : Int) : Option α :=
  if 0 ≤ i then l.get? i.toNat
  else if (-i).toNat ≤ l.length then l.get? (l.length - (-i).toNat) else none

/-- The list comprehension [chunks[i] for i in indices[0]]: every lookup
must succeed, otherwise the comprehension raises. -/
def pyGetAll {α : Type} (l : List α) : List Int → Option (List α)
  | [] => some []
  | i :: is_ =>
      match pyGet l i, pyGetAll l is_ with
      | some a, some rest => some (a :: rest)
      | _, _ => none

/-- SearchEngine.search (search.py): encodes the query, searches the
loaded index for the top k ids, and resolves each returned id through
the loaded chunk list.  The index and chunk list are the ones the
engine loaded at construction. -/
def search_engine_search (embed : String → List ℚ) (idx : FaissIndex)
    (chunks : List String) (query_text : String) (k : Nat) : Option (List String) :=
  let query_embedding := embed query_text
  let ids := flat_search idx query_embedding k
  pyGetAll chunks ids

/-! ### Concrete objects used by witnesses and counterexamples -/

/-- A concrete deterministic embedder standing in for the external
model: one-dimensional, text length as the coordinate. -/
def embedC : String → List ℚ := fun s => [(s.length : ℚ)]

/-- A concrete one-vector L2 index. -/
def idxL2 : FaissIndex := { metric := .l2, vecs := [[1]] }

/-- A data directory holding one two-word text file, nothing persisted
yet. -/
def fsA : FMState :=
  { dataFiles := [("a.txt", ["w1", "w2"])], indexFile := .absent, chunksFile := .absent }

/-! ### Claims -/

/-- C2: for any input of W whitespace-delimited words and any
chunk_size c > 0, the chunker produces exactly ceil(W / c) chunks
(written (W + c - 1) / c in natural division), every chunk except
possibly the last holds exactly c words, concatenating the chunks'
word groups in order reproduces the original word sequence, and empty
input yields an empty chunk list with no error. -/
theorem chunk_count_law (c : Nat) (hc : 0 < c) (ws : List String) :
    (chunksOf c ws).length = (ws.length + c - 1) / c
    ∧ (∀ g ∈ (chunksOf c ws).dropLast, g.length = c)
    ∧ (chunksOf c ws).flatten = ws
    ∧ chunksOf c ([] : List String) = []
    ∧ (load_and_chunk_words ws c).length = (ws.length + c - 1) / c := by
  refine ⟨chunksOfAux_length c hc _ ws le_rfl,
    chunksOfAux_dropLast c hc _ ws le_rfl,
    chunksOfAux_flatten c hc _ ws le_rfl, rfl, ?_⟩
  unfold load_and_chunk_words
  rw [List.length_map]
  exact chunksOfAux_length c hc _ ws le_rfl

theorem chunk_count_law_witness :
    0 < 2
    ∧ ((chunksOf 2 (["a", "b", "c"] : List String)).length
          = ((["a", "b", "c"] : List String).length + 2 - 1) / 2
        ∧ (∀ g ∈ (chunksOf 2 (["a", "b", "c"] : List String)).dropLast, g.length = 2)
        ∧ (chunksOf 2 (["a", "b", "c"] : List String)).flatten = ["a", "b", "c"]
        ∧ chunksOf 2 ([] : List String) = []
        ∧ (load_and_chunk_words ["a", "b", "c"] 2).length
            = ((["a", "b", "c"] : List String).length + 2 - 1) / 2) :=
  ⟨by decide, chunk_count_law 2 (by decide) ["a", "b", "c"]⟩

/-- C1: after any successful rebuild (build_index_from_chunks,
FileManager.rebuild_index) or add, the vector count equals the chunk
list length.  For DeepResearcher.add_documents the stated parity needs
the (inductively maintained) class invariant that self.index = None
only when self.documents is empty; the state produced by add_documents
and then persisted by save_index is in parity unconditionally on the
rest of the state.  FileManager.add_file_to_index never succeeds (see
its definition: the positional-argument slip at file_manager.py line
191 makes the DeepResearcher constructor raise), so successful adds
through it are vacuous. -/
theorem index_chunk_parity (embed : String → List ℚ) (fs : FMState) (st : DRState)
    (chunks docs : List String) :
    (∀ idx cs, build_index_from_chunks embed chunks = some (idx, cs) →
        idx.vecs.length = cs.length)
    ∧ ((rebuild_index embed fs).2 = true →
        ∃ idx cs, (rebuild_index embed fs).1.indexFile = .good idx
          ∧ (rebuild_index embed fs).1.chunksFile = .good cs
          ∧ idx.vecs.length = cs.length)
    ∧ ((st.index = none → st.documents = []) →
        ∃ idx, (add_documents embed st docs).state.index = some idx
          ∧ idx.vecs.length = (add_documents embed st docs).state.documents.length)
    ∧ ((st.index = none → st.documents = []) → docs ≠ [] →
        ∀ ifl cfl, ∃ idx cs,
          save_index (add_documents embed st docs).state ifl cfl = (.good idx, .good cs)
          ∧ idx.vecs.length = cs.length)
    ∧ (∀ name, (add_file_to_index fs name).2 = false) := by
  have hadd : (st.index = none → st.documents = []) →
      ∃ idx, (add_documents embed st docs).state.index = some idx
        ∧ idx.vecs.length = (add_documents embed st docs).state.documents.length := by
    intro hinv
    cases hidx : st.index with
    | none =>
        have hdocs : st.documents = [] := hinv hidx
        refine ⟨setup_vector_index (create_embeddings embed docs), ?_, ?_⟩
        · simp [add_documents, hidx]
        · simp [add_documents, hidx, hdocs, setup_vector_index, create_embeddings]
    | some i =>
        refine ⟨setup_vector_index (create_embeddings embed (st.documents ++ docs)), ?_, ?_⟩
        · simp [add_documents, hidx]
        · simp [add_documents, hidx, setup_vector_index, create_embeddings]
  refine ⟨?_, ?_, hadd, ?_, ?_⟩
  · intro idx cs h
    cases chunks with
    | nil => simp [build_index_from_chunks] at h
    | cons a t =>
        have h' : (({ metric := .l2, vecs := (a :: t).map embed } : FaissIndex), a :: t)
            = (idx, cs) := by
          simpa [build_index_from_chunks] using h
        obtain ⟨h1, h2⟩ : ({ metric := .l2, vecs := (a :: t).map embed } : FaissIndex) = idx
            ∧ (a :: t) = cs := ⟨congrArg Prod.fst h', congrArg Prod.snd h'⟩
        rw [← h1, ← h2]
        simp
  · intro h
    unfold rebuild_index at h ⊢
    by_cases he : (load_all_text_files fs 200).isEmpty
    · simp [he] at h
    · simp only [he, if_false] at h ⊢
      unfold build_index_from_chunks at h ⊢
      simp only [he, if_false] at h ⊢
      refine ⟨_, _, rfl, rfl, ?_⟩
      simp [save_index_and_chunks]
  · intro hinv hdocs ifl cfl
    obtain ⟨idx, hsome, hlen⟩ := hadd hinv
    have hne : (add_documents embed st docs).state.documents ≠ [] := by
      have : (add_documents embed st docs).state.documents = st.documents ++ docs := by
        cases hidx : st.index <;> simp [add_documents, hidx]
      rw [this]
      intro hcon
      exact hdocs (List.append_eq_nil.mp hcon).2
    refine ⟨idx, (add_documents embed st docs).state.documents, ?_, hlen⟩
    unfold save_index
    rw [hsome]
    simp [hne]
  · intro name
    unfold add_file_to_index
    cases h : lookupData fs name with
    | none => rfl
    | some content =>
        simp only []
        split <;> rfl

theorem index_chunk_parity_witness :
    (rebuild_index embedC fsA).2 = true
    ∧ ∃ idx cs, (rebuild_index embedC fsA).1.indexFile = .good idx
        ∧ (rebuild_index embedC fsA).1.chunksFile = .good cs
        ∧ idx.vecs.length = cs.length :=
  ⟨by decide,
    (index_chunk_parity embedC fsA { index := none, documents := [] } [] []).2.1
      (by decide)⟩

/-- Metric stored in a persisted index file slot, if any. -/
def metricOfP : PFile FaissIndex → Option Metric
  | .good i => some i.metric
  | _ => none

/-- C3 counterexample: the claim that one fixed metric is used across
build and every later extension fails on the code.  Rebuilding from the
data directory persists an IndexFlatL2 index (build_index.py line 35),
but extending that loaded state through DeepResearcher.add_documents
recreates the index with setup_vector_index, which always constructs
IndexFlatIP (deep_researcher.py line 66) - the concrete run below
starts from an L2 index and ends with an IP index over the same logical
document set. -/
theorem metric_mix_counterexample :
    metricOfP (rebuild_index embedC fsA).1.indexFile = some .l2
    ∧ ((add_documents embedC
          (load_existing_index (rebuild_index embedC fsA).1.indexFile
            (rebuild_index embedC fsA).1.chunksFile).1 ["new doc"]).state.index).map
        (fun i => i.metric) = some .ip
    ∧ Metric.l2 ≠ Metric.ip := by decide

/-- C3 amended: each individual construction site fixes its metric -
build_index_from_chunks always builds L2 and setup_vector_index (hence
every index produced by add_documents) always builds IP - but the
metric is NOT preserved from a rebuild to a later add: a successful
rebuild persists an L2 index while any index produced by add_documents
is IP, so the repository mixes the two variants across build and
extension. -/
theorem metric_amended (embed : String → List ℚ) (fs : FMState) (st : DRState)
    (chunks docs : List String) :
    (∀ idx cs, build_index_from_chunks embed chunks = some (idx, cs) → idx.metric = .l2)
    ∧ (∀ e, (setup_vector_index e).metric = .ip)
    ∧ ((rebuild_index embed fs).2 = true →
        metricOfP (rebuild_index embed fs).1.indexFile = some .l2)
    ∧ (∀ idx, (add_documents embed st docs).state.index = some idx → idx.metric = .ip) := by
  refine ⟨?_, fun e => rfl, ?_, ?_⟩
  · intro idx cs h
    cases chunks with
    | nil => simp [build_index_from_chunks] at h
    | cons a t =>
        have h' : (({ metric := .l2, vecs := (a :: t).map embed } : FaissIndex), a :: t)
            = (idx, cs) := by
          simpa [build_index_from_chunks] using h
        have h1 : ({ metric := .l2, vecs := (a :: t).map embed } : FaissIndex) = idx :=
          congrArg Prod.fst h'
        rw [← h1]
  · intro h
    unfold rebuild_index at h ⊢
    by_cases he : (load_all_text_files fs 200).isEmpty
    · simp [he] at h
    · simp only [he, if_false] at h ⊢
      unfold build_index_from_chunks at h ⊢
      simp only [he, if_false] at h ⊢
      simp [save_index_and_chunks, metricOfP]
  · intro idx h
    cases hidx : st.index with
    | none =>
        simp only [add_documents, hidx] at h
        rw [← Option.some.inj h]
        rfl
    | some i =>
        simp only [add_documents, hidx] at h
        rw [← Option.some.inj h]
        rfl

theorem metric_amended_witness :
    (rebuild_index embedC fsA).2 = true
    ∧ metricOfP (rebuild_index embedC fsA).1.indexFile = some .l2 :=
  ⟨by decide,
    (metric_amended embedC fsA { index := none, documents := [] } [] []).2.2.1 (by decide)⟩

/-- A researcher state holding an existing one-vector index and one
already-indexed chunk. -/
def stOld : DRState :=
  { index := some { metric := .ip, vecs := [[1]] }, documents := ["olddoc"] }

/-- C4 counterexample: the claim that add embeds only the new chunks
and appends their vectors without recomputing the existing ones fails
on the code.  With an existing index, add_documents calls
create_embeddings twice - once on the new documents and once on the
whole extended document list (deep_researcher.py line 126) - so the
texts embedded are not just the new chunks, and every existing vector
is recomputed when the index is recreated. -/
theorem add_reembeds_counterexample :
    (add_documents embedC stOld ["newdoc"]).embeddedBatches ≠ [["newdoc"]]
    ∧ "olddoc" ∈ (add_documents embedC stOld ["newdoc"]).embeddedBatches.flatten
    ∧ (add_documents embedC stOld ["newdoc"]).embeddedBatches
        = [["newdoc"], ["olddoc", "newdoc"]] := by decide

/-- C4 amended: add_documents does append the new chunks to the chunk
list (documents becomes old ++ new), but it does not append vectors to
the existing index.  When no index exists it embeds exactly the new
documents; when an index exists it additionally re-embeds the whole
extended list and rebuilds the index from scratch, so the final vectors
are embed(old) ++ embed(new) by recomputation, not by reuse. -/
theorem add_documents_amended (embed : String → List ℚ) (st : DRState)
    (docs : List String) :
    (add_documents embed st docs).state.documents = st.documents ++ docs
    ∧ (st.index = none →
        (add_documents embed st docs).embeddedBatches = [docs]
        ∧ (add_documents embed st docs).state.index
            = some { metric := .ip, vecs := docs.map embed })
    ∧ (∀ i, st.index = some i →
        (add_documents embed st docs).embeddedBatches = [docs, st.documents ++ docs]
        ∧ (add_documents embed st docs).state.index
            = some { metric := .ip, vecs := st.documents.map embed ++ docs.map embed }) := by
  refine ⟨?_, ?_, ?_⟩
  · cases hidx : st.index <;> simp [add_documents, hidx]
  · intro hidx
    simp [add_documents, hidx, setup_vector_index, create_embeddings]
  · intro i hidx
    simp [add_documents, hidx, setup_vector_index, create_embeddings, List.map_append]

theorem add_documents_amended_witness :
    stOld.index = some { metric := .ip, vecs := [[1]] }
    ∧ ((add_documents embedC stOld ["newdoc"]).embeddedBatches
        = [["newdoc"], ["olddoc", "newdoc"]]
      ∧ (add_documents embedC stOld ["newdoc"]).state.index
        = some { metric := .ip,
                 vecs := (["olddoc"] : List String).map embedC
                   ++ (["newdoc"] : List String).map embedC }) :=
  ⟨rfl, (add_documents_amended embedC stOld ["newdoc"]).2.2 _ rfl⟩

/-! Helper lemmas about Python indexing and the comprehension. -/

theorem pyGet_ofNat {α : Type} (l : List α) (j : Nat) :
    pyGet l (Int.ofNat j) = l.get? j := by
  have h : (0 : Int) ≤ Int.ofNat j := Int.ofNat_zero_le j
  simp [pyGet, h]

/-- Total description of what a Python lookup yields on the id rows we
encounter: non-negative ids read the list (with an irrelevant default),
id -1 reads the default that callers set to the last element. -/
def pyElem {α : Type} (l : List α) (d : α) (i : Int) : α :=
  if 0 ≤ i then l.getD i.toNat d else d

theorem pyElem_ofNat {α : Type} (l : List α) (d : α) (j : Nat) :
    pyElem l d (Int.ofNat j) = l.getD j d := by
  have h : (0 : Int) ≤ Int.ofNat j := Int.ofNat_zero_le j
  simp [pyElem, h]

theorem pyElem_neg_one {α : Type} (l : List α) (d : α) :
    pyElem l d (-1) = d := by
  unfold pyElem
  rw [if_neg (by decide)]

theorem pyGet_neg_one {α : Type} (l : List α) (h : l ≠ []) :
    pyGet l (-1) = some (l.getLast h) := by
  have h1 : 0 < l.length := List.length_pos.mpr h
  unfold pyGet
  rw [if_neg (by decide)]
  have h2 : ((-(-1 : Int)).toNat) = 1 := by decide
  rw [if_pos (by rw [h2]; omega), h2]
  rw [List.get?_eq_getElem?, List.getElem?_eq_getElem (by omega : l.length - 1 < l.length)]
  rw [List.getLast_eq_getElem]

theorem pyGetAll_eq_map {α : Type} (l : List α) (g : Int → α) :
    ∀ ids : List Int, (∀ i ∈ ids, pyGet l i = some (g i)) →
      pyGetAll l ids = some (ids.map g) := by
  intro ids
  induction ids with
  | nil => intro _; rfl
  | cons i t ih =>
      intro h
      have hi := h i (by simp)
      have ht := ih (fun j hj => h j (by simp [hj]))
      simp [pyGetAll, hi, ht]

theorem map_getD_range {α : Type*} (d : α) :
    ∀ l : List α, (List.range l.length).map (fun j => l.getD j d) = l := by
  intro l
  induction l with
  | nil => rfl
  | cons a t ih =>
      rw [List.length_cons, List.range_succ_eq_map, List.map_cons, List.map_map]
      have hcomp : ((fun j => (a :: t).getD j d) ∘ Nat.succ) = fun j => t.getD j d := by
        funext j
        simp [Function.comp, List.getD_cons_succ]
      rw [hcomp, ih]
      rfl

/-- C5 counterexample: the claim that search on an index holding n < k
vectors returns exactly n results fails on the code.  FAISS always
returns k result slots, padding the missing ones with id -1, and the
wrapper search.py line 53 resolves every returned id through Python
list indexing, where -1 denotes the last element - so a one-vector
index queried with k = 2 yields two results, the single stored chunk
twice. -/
theorem search_result_bound_counterexample :
    search_engine_search embedC { metric := .l2, vecs := [[0]] } ["c0"] "q" 2
      = some ["c0", "c0"]
    ∧ (["c0", "c0"] : List String).length = 2
    ∧ ({ metric := .l2, vecs := [[0]] } : FaissIndex).vecs.length = 1
    ∧ (2 : Nat) ≠ 1 := by decide

/-- C5 amended: on an index holding n vectors with 0 < n < k and a
chunk list in parity with it, SearchEngine.search returns exactly k
results, not n: the first n are the stored chunks (a permutation of
them, ordered best-first by the metric) and the trailing k - n entries
all repeat the last chunk, because FAISS pads the id row with -1 and
Python list indexing maps -1 to the last element. -/
theorem search_result_bound_amended (embed : String → List ℚ) (idx : FaissIndex)
    (chunks : List String) (q : String) (k : Nat)
    (hpar : idx.vecs.length = chunks.length)
    (hne : chunks ≠ [])
    (hk : idx.vecs.length < k) :
    ∃ l, search_engine_search embed idx chunks q k = some l
      ∧ l.length = k
      ∧ l.drop idx.vecs.length
          = List.replicate (k - idx.vecs.length) (chunks.getLast hne)
      ∧ (l.take idx.vecs.length).Perm chunks := by
  obtain ⟨sorted, hperm, hflat⟩ :
      ∃ sorted : List (Int × ℚ),
        sorted.Perm ((List.range idx.vecs.length).map
          (fun i => (Int.ofNat i, score idx.metric (embed q) (idx.vecs.getD i []))))
        ∧ flat_search idx (embed q) k
            = (sorted.take k).map (fun p => p.1)
              ++ List.replicate (k - idx.vecs.length) (-1) := by
    cases hm : idx.metric with
    | l2 =>
        refine ⟨_, List.perm_insertionSort (fun a b : Int × ℚ => a.2 ≤ b.2) _, ?_⟩
        simp only [flat_search, hm]
    | ip =>
        refine ⟨_, List.perm_insertionSort (fun a b : Int × ℚ => b.2 ≤ a.2) _, ?_⟩
        simp only [flat_search, hm]
  have hsorted_len : sorted.length = idx.vecs.length := by
    rw [hperm.length_eq, List.length_map, List.length_range]
  have htake : sorted.take k = sorted := List.take_of_length_le (by omega)
  have hmapfst : ((List.range idx.vecs.length).map
        (fun i => (Int.ofNat i, score idx.metric (embed q) (idx.vecs.getD i [])))).map
        (fun p : Int × ℚ => p.1)
      = (List.range idx.vecs.length).map Int.ofNat := by
    rw [List.map_map]
    rfl
  have hids_perm : (sorted.map (fun p : Int × ℚ => p.1)).Perm
      ((List.range idx.vecs.length).map Int.ofNat) := by
    rw [← hmapfst]
    exact hperm.map _
  have hg : ∀ i ∈ (sorted.map (fun p : Int × ℚ => p.1))
      ++ List.replicate (k - idx.vecs.length) (-1),
      pyGet chunks i = some (pyElem chunks (chunks.getLast hne) i) := by
    intro i hi
    rcases List.mem_append.mp hi with hi | hi
    · have hmem : i ∈ (List.range idx.vecs.length).map Int.ofNat :=
        hids_perm.mem_iff.mp hi
      obtain ⟨j, hj, rfl⟩ := List.mem_map.mp hmem
      have hjn : j < chunks.length := by
        rw [← hpar]; exact List.mem_range.mp hj
      rw [pyGet_ofNat, List.get?_eq_getElem?, List.getElem?_eq_getElem hjn,
        pyElem_ofNat, List.getD_eq_getElem _ _ hjn]
    · have : i = -1 := List.eq_of_mem_replicate hi
      subst this
      rw [pyGet_neg_one chunks hne, pyElem_neg_one]
  have hidslen : (sorted.map (fun p : Int × ℚ => p.1)).length = idx.vecs.length := by
    rw [List.length_map, hsorted_len]
  refine ⟨((sorted.map (fun p : Int × ℚ => p.1))
      ++ List.replicate (k - idx.vecs.length) (-1)).map
        (pyElem chunks (chunks.getLast hne)), ?_, ?_, ?_, ?_⟩
  · show pyGetAll chunks (flat_search idx (embed q) k) = _
    rw [hflat, htake]
    exact pyGetAll_eq_map chunks (pyElem chunks (chunks.getLast hne)) _ hg
  · rw [List.length_map, List.length_append, List.length_replicate, hidslen]
    omega
  · rw [List.map_append]
    have h1 : ((sorted.map (fun p : Int × ℚ => p.1)).map
        (pyElem chunks (chunks.getLast hne))).length = idx.vecs.length := by
      rw [List.length_map, hidslen]
    rw [← h1, List.drop_left, List.map_replicate, pyElem_neg_one]
  · rw [List.map_append]
    have h1 : ((sorted.map (fun p : Int × ℚ => p.1)).map
        (pyElem chunks (chunks.getLast hne))).length = idx.vecs.length := by
      rw [List.length_map, hidslen]
    rw [← h1, List.take_left]
    have hchain : (((List.range idx.vecs.length).map Int.ofNat).map
        (pyElem chunks (chunks.getLast hne))) = chunks := by
      rw [List.map_map]
      have hfun : (pyElem chunks (chunks.getLast hne) ∘ Int.ofNat)
          = fun j => chunks.getD j (chunks.getLast hne) := by
        funext j
        exact pyElem_ofNat chunks (chunks.getLast hne) j
      rw [hfun, hpar]
      exact map_getD_range (chunks.getLast hne) chunks
    calc ((sorted.map (fun p : Int × ℚ => p.1)).map
          (pyElem chunks (chunks.getLast hne))).Perm
          (((List.range idx.vecs.length).map Int.ofNat).map
            (pyElem chunks (chunks.getLast hne))) :=
        hids_perm.map _
      _ = chunks := hchain

theorem search_result_bound_amended_witness :
    ({ metric := .l2, vecs := [[0]] } : FaissIndex).vecs.length
        = (["c0"] : List String).length
    ∧ (["c0"] : List String) ≠ []
    ∧ ({ metric := .l2, vecs := [[0]] } : FaissIndex).vecs.length < 2
    ∧ ∃ l, search_engine_search embedC { metric := .l2, vecs := [[0]] } ["c0"] "q" 2
          = some l
        ∧ l.length = 2
        ∧ l.drop ({ metric := .l2, vecs := [[0]] } : FaissIndex).vecs.length
            = List.replicate (2 - ({ metric := .l2, vecs := [[0]] } : FaissIndex).vecs.length)
                ((["c0"] : List String).getLast (List.cons_ne_nil "c0" []))
        ∧ (l.take ({ metric := .l2, vecs := [[0]] } : FaissIndex).vecs.length).Perm ["c0"] :=
  ⟨by decide, by decide, by decide,
    search_result_bound_amended embedC { metric := .l2, vecs := [[0]] } ["c0"] "q" 2
      (by decide) (List.cons_ne_nil "c0" []) (by decide)⟩

/-- C6 counterexample: the claim that every combination other than
both-files-present-and-parsing is surfaced as a distinct failure fails
on the code.  load_existing_index gates on both paths existing
(deep_researcher.py line 42); with the index file present and the
chunks file missing it takes the very same else-branch as when both
files are missing, printing "No existing index found" - the
one-file-missing state is silently treated as the no-index case, with
an identical resulting state and outcome. -/
theorem load_one_missing_counterexample :
    load_existing_index (.good idxL2) (.absent : PFile (List String))
      = load_existing_index (.absent : PFile FaissIndex) (.absent : PFile (List String))
    ∧ (load_existing_index (.good idxL2) (.absent : PFile (List String))).2
      = .noIndex := by decide

/-- C6 amended: load succeeds exactly when both files exist and parse,
and a present-but-unparsable file is surfaced as a distinct caught
error (loadError); but when at least one file is missing the load is
silently treated as the no-index case (noIndex), indistinguishable
from a fresh state with no files at all, and every non-success leaves
the reset state (no index, empty documents). -/
theorem load_existing_index_amended (ifl : PFile FaissIndex) (cfl : PFile (List String)) :
    ((load_existing_index ifl cfl).2 = .loaded ↔ ∃ i cs, ifl = .good i ∧ cfl = .good cs)
    ∧ (∀ i cs, ifl = .good i → cfl = .good cs →
        load_existing_index ifl cfl = ({ index := some i, documents := cs }, .loaded))
    ∧ ((load_existing_index ifl cfl).2 = .noIndex
        ↔ (ifl.present = false ∨ cfl.present = false))
    ∧ ((load_existing_index ifl cfl).2 ≠ .loaded →
        (load_existing_index ifl cfl).1 = { index := none, documents := [] }) := by
  cases ifl <;> cases cfl <;>
    simp [load_existing_index, PFile.present]

theorem load_existing_index_amended_witness :
    load_existing_index (.good idxL2) (.good (["c"] : List String))
      = ({ index := some idxL2, documents := ["c"] }, .loaded) :=
  (load_existing_index_amended (.good idxL2) (.good ["c"])).2.1 idxL2 ["c"] rfl rfl

/-- C7: when the data directory holds no indexable files, rebuild_index
loads zero chunks, reports failure before any index is built, and the
whole state - in particular the two persisted files - is returned
untouched. -/
theorem rebuild_index_no_files (embed : String → List ℚ) (fs : FMState)
    (h : list_uploaded_files fs = []) :
    rebuild_index embed fs = (fs, false) := by
  have hfil : fs.dataFiles.filter (fun p => isTxt p.1) = [] := by
    unfold list_uploaded_files at h
    exact List.map_eq_nil_iff.mp h
  unfold rebuild_index load_all_text_files
  rw [hfil]
  rfl

/-- A directory holding only a non-.txt file, with a persisted pair. -/
def fsNoTxt : FMState :=
  { dataFiles := [("b.md", ["x"])], indexFile := .good idxL2, chunksFile := .good ["c"] }

theorem rebuild_index_no_files_witness :
    list_uploaded_files fsNoTxt = []
    ∧ rebuild_index embedC fsNoTxt = (fsNoTxt, false) :=
  ⟨by decide, rebuild_index_no_files embedC fsNoTxt (by decide)⟩

/-- find? over a filter that only discards elements the predicate
cannot match is find? over the original list. -/
theorem find?_filter_of_imp {α : Type*} (p q : α → Bool)
    (himp : ∀ a, p a = true → q a = true) :
    ∀ l : List α, List.find? p (l.filter q) = List.find? p l := by
  intro l
  induction l with
  | nil => rfl
  | cons a t ih =>
      by_cases hq : q a = true
      · rw [List.filter_cons_of_pos hq]
        by_cases hp : p a = true
        · rw [List.find?_cons_of_pos _ hp, List.find?_cons_of_pos _ hp]
        · rw [List.find?_cons_of_neg _ (by simpa using hp),
            List.find?_cons_of_neg _ (by simpa using hp), ih]
      · have hp : ¬ p a = true := fun hpa => hq (himp a hpa)
        rw [List.filter_cons_of_neg (by simpa using hq),
          List.find?_cons_of_neg _ (by simpa using hp), ih]

/-- C8: remove_file fails (False) when the named file is absent; when
present it deletes exactly that file and reports True; in both cases
the persisted index and chunks files are untouched, every other data
file is still found under its name, and the index statistics'
total_vectors and total_chunks (hence the chunks of a removed but
already indexed file) are unchanged until a rebuild. -/
theorem remove_file_frame (fs : FMState) (name : String) :
    (lookupData fs name = none → remove_file fs name = (fs, false))
    ∧ ((lookupData fs name).isSome = true →
        (remove_file fs name).2 = true
        ∧ (remove_file fs name).1.indexFile = fs.indexFile
        ∧ (remove_file fs name).1.chunksFile = fs.chunksFile
        ∧ lookupData (remove_file fs name).1 name = none
        ∧ ∀ m, m ≠ name → lookupData (remove_file fs name).1 m = lookupData fs m)
    ∧ ((get_index_stats (remove_file fs name).1).map
          (fun s => (s.total_vectors, s.total_chunks))
        = (get_index_stats fs).map (fun s => (s.total_vectors, s.total_chunks))) := by
  have hframe : (remove_file fs name).1.indexFile = fs.indexFile
      ∧ (remove_file fs name).1.chunksFile = fs.chunksFile := by
    unfold remove_file
    by_cases h : (lookupData fs name).isSome = true <;> simp [h]
  refine ⟨?_, ?_, ?_⟩
  · intro h
    unfold remove_file
    rw [h]
    rfl
  · intro h
    unfold remove_file
    rw [if_pos h]
    refine ⟨rfl, rfl, rfl, ?_, ?_⟩
    · unfold lookupData
      simp only []
      rw [List.find?_eq_none.mpr]
      · rfl
      · intro x hx
        have := (List.mem_filter.mp hx).2
        simp only [bne_iff_ne, ne_eq] at this
        simp [this]
    · intro m hm
      unfold lookupData
      simp only []
      rw [find?_filter_of_imp (fun p : String × List String => p.1 == m)
        (fun p : String × List String => p.1 != name) ?_]
      intro a ha
      have : a.1 = m := by simpa using ha
      simp [this, hm]
  · unfold get_index_stats
    rw [hframe.1, hframe.2]
    by_cases hie : fs.indexFile.present = true <;>
      by_cases hce : fs.chunksFile.present = true <;>
        cases hcf : fs.chunksFile <;> cases hif : fs.indexFile <;>
          simp_all [PFile.present]

/-- A directory with two files and a persisted pair, for the remove
witness. -/
def fsTwo : FMState :=
  { dataFiles := [("a.txt", ["w1", "w2"]), ("b.txt", ["w3"])],
    indexFile := .good idxL2, chunksFile := .good ["c"] }

theorem remove_file_frame_witness :
    (lookupData fsTwo "a.txt").isSome = true
    ∧ ((remove_file fsTwo "a.txt").2 = true
      ∧ (remove_file fsTwo "a.txt").1.indexFile = fsTwo.indexFile
      ∧ (remove_file fsTwo "a.txt").1.chunksFile = fsTwo.chunksFile
      ∧ lookupData (remove_file fsTwo "a.txt").1 "a.txt" = none
      ∧ ∀ m, m ≠ "a.txt" →
          lookupData (remove_file fsTwo "a.txt").1 m = lookupData fsTwo m)
    ∧ ((get_index_stats (remove_file fsTwo "a.txt").1).map
          (fun s => (s.total_vectors, s.total_chunks))
        = (get_index_stats fsTwo).map
            (fun s => (s.total_vectors, s.total_chunks))) :=
  ⟨by decide, (remove_file_frame fsTwo "a.txt").2.1 (by decide),
    (remove_file_frame fsTwo "a.txt").2.2⟩

/-- A directory holding one three-word text file. -/
def fsDoc : FMState :=
  { dataFiles := [("doc.txt", ["a", "b", "c"])], indexFile := .absent, chunksFile := .absent }

/-- C9 counterexample: the claim that the reported chunk count always
equals the count under the chunk_size parameter passed by the caller
fails on the code: get_file_info takes no chunk_size parameter at all
and always re-chunks with the hard-coded size 200 (file_manager.py
line 122).  A caller working with chunk_size 1 sees 3 chunks for a
three-word file, while get_file_info reports 1. -/
theorem file_info_chunk_size_counterexample :
    (get_file_info fsDoc "doc.txt").map (fun i => i.chunks) = some 1
    ∧ (load_and_chunk_words ["a", "b", "c"] 1).length = 3
    ∧ (1 : Nat) ≠ 3 := by decide

/-- C9 amended: get_file_info returns None exactly when the file is
absent, and otherwise recomputes the chunk count on demand from the
current file content - but always with the hard-coded chunk_size 200,
not with any caller-supplied chunk size (the function has no such
parameter). -/
theorem get_file_info_amended (fs : FMState) (name : String) :
    (lookupData fs name = none → get_file_info fs name = none)
    ∧ (∀ content, lookupData fs name = some content →
        get_file_info fs name
          = some { name := name,
                   chunks := (load_and_chunk_words content 200).length }) := by
  constructor
  · intro h
    unfold get_file_info
    rw [h]
  · intro content h
    unfold get_file_info
    rw [h]

theorem get_file_info_amended_witness :
    lookupData fsDoc "doc.txt" = some ["a", "b", "c"]
    ∧ get_file_info fsDoc "doc.txt"
      = some { name := "doc.txt",
               chunks := (load_and_chunk_words ["a", "b", "c"] 200).length } :=
  ⟨by decide, (get_file_info_amended fsDoc "doc.txt").2 ["a", "b", "c"] (by decide)⟩

/-- C10: upload_file accepts a chunk_size argument but never reads it
(file_manager.py lines 33-62): for any two chunk sizes and the same
source and state, the returned flag and the entire resulting state are
identical. -/
theorem upload_file_ignores_chunk_size (fs : FMState) (srcName : String)
    (srcContent : Option (List String)) (c₁ c₂ : Nat) :
    upload_file fs srcName srcContent c₁ = upload_file fs srcName srcContent c₂ := rfl

end DeepResearch
